import Mathlib

/-!
Verification of the numeric-formatting and unit-conversion core of
`zerovoids-utils`: the rounding engine (`roundHalfAwayFromZero`,
`toBankersRound`), the unit ladder model (`UnitMap`, `BASE_UNIT_MAP`) and the
conversion / auto-fit / optimal-unit operations (`convertUnitFromTo`,
`convertUnitToFit`, `getOptimalUnit`).

The TypeScript source computes on IEEE doubles; the embedding computes on `ℚ`.
The source's own 8-decimal-place `toFixed(8)` correction step exists precisely
to make the double computation agree with the exact decimal computation, and it
is modelled explicitly (`jsToFixed8`).  JS `Math.round` (`jsRound`),
`Array.prototype.indexOf` (`jsIndexOf`), truthiness of the `from` argument
(`resolveFromIndex`) and `undefined` slipping through an `as string` cast
(`Option String` suffix fields) are all modelled explicitly.
-/

/-- JS `+x.toFixed(8)` on a rational, per ECMA-262: the magnitude is rounded
to 8 decimal places (ties pick the larger digit string, i.e. half-up on the
magnitude) and the sign is restored, since `toFixed` formats a negative number
by formatting its negation and prepending a minus sign. -/
def jsToFixed8 (q : ℚ) : ℚ :=
  if q < 0 then -((⌊-q * 10 ^ 8 + 1 / 2⌋ : ℚ) / 10 ^ 8)
  else (⌊q * 10 ^ 8 + 1 / 2⌋ : ℚ) / 10 ^ 8

/-- JS `Math.round`: round to the nearest integer, ties toward `+∞`,
which is `⌊x + 1/2⌋`. -/
def jsRound (q : ℚ) : ℚ := (⌊q + 1 / 2⌋ : ℚ)

/-- Fuelled base-10 integer logarithm: `natLog10F fuel n` is the largest `e`
with `10 ^ e ≤ n`, provided `1 ≤ n ≤ fuel`. -/
def natLog10F (fuel n : ℕ) : ℕ :=
  if h : fuel = 0 then 0
  else if n < 10 then 0 else natLog10F (fuel - 1) (n / 10) + 1
termination_by fuel
decreasing_by omega

/-- Base-10 integer logarithm of a natural number (0 for `n = 0`). -/
def natLog10 (n : ℕ) : ℕ := natLog10F n n

/-- Exact `Math.floor(Math.log10 q)` for a positive rational `q`.  For
`1 ≤ q` this is the integer logarithm of `⌊q⌋`; for `0 < q < 1` with
numerator `a` and denominator `b` it is `-(natLog10 ((b - 1) / a) + 1)`.
JS evaluates `Math.log10` in floating point and `q ≤ 0` would give `NaN`;
the library only applies this to positive magnitudes, so the `q ≤ 0` case
returns the junk value 0. -/
def floorLog10 (q : ℚ) : ℤ :=
  if 1 ≤ q then (natLog10 ⌊q⌋.toNat : ℤ)
  else if 0 < q then -((natLog10 ((q.den - 1) / q.num.toNat) : ℤ) + 1)
  else 0

/-- `getSignificantDigitIndex` from `src/number/getSignificantDigitIndex.ts`:
`-Math.floor(Math.log10(value))`.  The source's `-0 → 0` normalization is a
no-op on `ℤ`. -/
def getSignificantDigitIndex (value : ℚ) : ℤ := -floorLog10 value

/-- The body of `toBankersRound` after the effective precision has been
resolved: scale (JS truthiness: a zero precision skips the multiplication),
apply the `toFixed(8)` drift correction, split into integer and fractional
parts, treat a fractional part within `1e-8` of `0.5` as a tie rounded to the
even neighbour, otherwise `Math.round`, then descale. -/
def bankersRoundCore (value : ℚ) (effectivePrecision : ℤ) : ℚ :=
  let scaleFactor : ℚ := 10 ^ effectivePrecision
  let scaledValue : ℚ :=
    jsToFixed8 (if effectivePrecision ≠ 0 then value * scaleFactor else value)
  let integerPart : ℤ := ⌊scaledValue⌋
  let fractionalPart : ℚ := scaledValue - integerPart
  let epsilon : ℚ := 1 / 10 ^ 8
  let roundedValue : ℚ :=
    if 1 / 2 - epsilon < fractionalPart ∧ fractionalPart < 1 / 2 + epsilon then
      if integerPart % 2 = 0 then (integerPart : ℚ) else ((integerPart + 1 : ℤ) : ℚ)
    else jsRound scaledValue
  if effectivePrecision ≠ 0 then roundedValue / scaleFactor else roundedValue

/-- `toBankersRound` from `src/number/toBankersRound.ts` on an already
validated finite numeric value.  Zero short-circuits; magnitudes below 1 use
the adaptive effective precision `max (getSignificantDigitIndex |value|)
precision`. -/
def toBankersRound (value : ℚ) (precision : ℤ) : ℚ :=
  if value = 0 then 0
  else
    bankersRoundCore value
      (if |value| < 1 then max (getSignificantDigitIndex |value|) precision
       else precision)

/-- `roundHalfAwayFromZero` from `roundHalfAwayFromZero.ts` on an already
validated finite numeric value: scale the absolute value, correct drift with
`toFixed(8)`, `Math.round`, restore the sign, descale. -/
def roundHalfAwayFromZero (numericValue : ℚ) (precision : ℤ) : ℚ :=
  let absoluteValue : ℚ := |numericValue|
  let sign : ℚ := if numericValue < 0 then -1 else 1
  let multiplier : ℚ := 10 ^ precision
  let scaledValue : ℚ := jsToFixed8 (absoluteValue * multiplier)
  let rounded : ℚ := jsRound scaledValue
  sign * rounded / multiplier

/-! Characterization layer: the post-scaling step of the banker's rounding
body, and rewriting lemmas that expose `bankersRoundCore` as scale /
`toFixed(8)` / `bankersPost` / descale. -/

/-- The integer produced by the banker's rounding body from the drift-corrected
scaled value: the even neighbour on a near-tie, `Math.round` otherwise. -/
def bankersPost (s : ℚ) : ℚ :=
  if 1 / 2 - 1 / 10 ^ 8 < s - ⌊s⌋ ∧ s - ⌊s⌋ < 1 / 2 + 1 / 10 ^ 8 then
    if ⌊s⌋ % 2 = 0 then (⌊s⌋ : ℚ) else ((⌊s⌋ + 1 : ℤ) : ℚ)
  else jsRound s

/-! Unit ladder model (`src/unit/types.ts`) and the conversion operations
(`convertUnitFromTo.ts`, `convertUnitToFit.ts`, `getOptimalUnit.ts`). -/

/-- One entry of a unit map: the power-of-ten `gap` between adjacent
suffixes, the ascending suffix list (source field `suffices`, renamed because
`suffices` is a Lean keyword) and the index of the base suffix. -/
structure UnitItem where
  gap : ℕ
  suffixes : List String
  baseIndex : ℕ

/-- A unit map sends a family name to its ladder when the key is present. -/
def UnitMap : Type := String → Option UnitItem

/-- `BASE_UNIT_MAP` from `src/unit/types.ts`. -/
def BASE_UNIT_MAP : UnitMap := fun unit =>
  match unit with
  | "area" => some ⟨6, ["cm²", "m²", "km²"], 1⟩
  | "mass" => some ⟨3, ["g", "kg", "ton"], 1⟩
  | "volume" => some ⟨3, ["mL", "L", "kL"], 1⟩
  | "data" => some ⟨3, ["B", "KB", "MB", "GB", "TB", "PB"], 0⟩
  | "count" => some ⟨3, ["", "K", "M", "B", "T"], 0⟩
  | "custom" => some ⟨3, [""], 0⟩
  | _ => none

/-- JS `Array.prototype.indexOf`: index of the first occurrence, `-1` when
absent. -/
def jsIndexOf (l : List String) (s : String) : ℤ :=
  match l.findIdx? (· == s) with
  | some i => (i : ℤ)
  | none => -1

/-- The shared `from ? suffices.indexOf(from) : baseIndex` expression of the
three unit operations.  JS truthiness: an absent `from` and the empty string
are both falsy, so both select `baseIndex`. -/
def resolveFromIndex (suffixes : List String) (baseIndex : ℕ)
    (fromOpt : Option String) : ℤ :=
  match fromOpt with
  | some s => if s = "" then (baseIndex : ℤ) else jsIndexOf suffixes s
  | none => (baseIndex : ℤ)

/-- The errors thrown by the unit operations. -/
inductive UnitError where
  | invalidUnit (unit : String)
  | invalidFromSuffix (s : Option String)
  | invalidToSuffix (s : String)
  | unknownOptimizer (s : String)

/-- The `{ number, unit, suffix }` result of every conversion.  `suffix` is
an `Option` because the source reads `suffices[i] as string`, a cast that
lets JS `undefined` through on a malformed ladder (`none` models
`undefined`). -/
structure ConvertedReturn where
  number : ℚ
  unit : String
  suffix : Option String

/-- `convertUnitFromTo` from `convertUnitFromTo.ts`: exact power-of-ten
rescaling `number * 10 ^ (-(toIndex - fromIndex) * gap)` followed by banker's
rounding at the default precision 1.  The source parameter `to` is renamed
`toSfx` (`to` is a Lean keyword). -/
def convertUnitFromTo (number : ℚ) (unitMap : UnitMap) (unit : String)
    (fromOpt : Option String) (toSfx : String) : Except UnitError ConvertedReturn :=
  match unitMap unit with
  | none => .error (.invalidUnit unit)
  | some targetUnitItem =>
    let fromIndex : ℤ :=
      resolveFromIndex targetUnitItem.suffixes targetUnitItem.baseIndex fromOpt
    let toIndex : ℤ := jsIndexOf targetUnitItem.suffixes toSfx
    if fromIndex = -1 then .error (.invalidFromSuffix fromOpt)
    else if toIndex = -1 then .error (.invalidToSuffix toSfx)
    else
      let diff : ℤ := (toIndex - fromIndex) * targetUnitItem.gap
      let num : ℚ := number * (10 : ℚ) ^ (-diff)
      .ok ⟨toBankersRound num 1, unit, some toSfx⟩

/-- The candidate walk of `convertUnitToFit` (its `for` loop): step `i`
(0-based) pairs candidate `targetSuffices[i]` with exponent
`sign * (i + 1) * gap`, returning on the first banker's-rounded value whose
magnitude lands in `[1, 10 ^ gapWithOffset)`.  The source's
`suffix !== undefined` guard never fires because the loop index stays in
range. -/
def fitSearch (number : ℚ) (sign : ℤ) (gap gapWithOffset : ℕ) :
    List String → ℕ → Option (ℚ × String)
  | [], _ => none
  | sfx :: rest, i =>
    let exponent : ℤ := sign * (i + 1) * gap
    let rounded : ℚ := toBankersRound (number * (10 : ℚ) ^ exponent) 1
    if 1 ≤ |rounded| ∧ |rounded| < (10 : ℚ) ^ gapWithOffset then some (rounded, sfx)
    else fitSearch number sign gap gapWithOffset rest (i + 1)

/-- `convertUnitToFit` from `convertUnitToFit.ts`: keep the starting suffix
when the magnitude is in the display window (or no candidate exists in the
search direction); otherwise walk the candidate list and clamp to its last
entry with a full rescaling when no candidate fits. -/
def convertUnitToFit (number : ℚ) (unitMap : UnitMap) (unit : String)
    (fromOpt : Option String) (offset : Bool) : Except UnitError ConvertedReturn :=
  match unitMap unit with
  | none => .error (.invalidUnit unit)
  | some targetUnitItem =>
    let fromIndexZ : ℤ :=
      resolveFromIndex targetUnitItem.suffixes targetUnitItem.baseIndex fromOpt
    if fromIndexZ = -1 then .error (.invalidFromSuffix fromOpt)
    else
      let fromIndex : ℕ := fromIndexZ.toNat
      let absNumber : ℚ := |number|
      let largerSuffices : List String := targetUnitItem.suffixes.drop (fromIndex + 1)
      let smallerSuffices : List String := targetUnitItem.suffixes.take fromIndex
      let targetSuffices : List String :=
        if absNumber < 1 then smallerSuffices else largerSuffices
      let sign : ℤ := if absNumber < 1 then 1 else -1
      let gapWithOffset : ℕ :=
        if offset then targetUnitItem.gap + 1 else targetUnitItem.gap
      if (1 ≤ absNumber ∧ absNumber < (10 : ℚ) ^ gapWithOffset) ∨
          targetSuffices = [] then
        .ok ⟨toBankersRound number 1, unit, targetUnitItem.suffixes[fromIndex]?⟩
      else
        match fitSearch number sign targetUnitItem.gap gapWithOffset targetSuffices 0 with
        | some (rounded, sfx) => .ok ⟨rounded, unit, some sfx⟩
        | none =>
          let totalSteps : ℕ := targetSuffices.length
          .ok ⟨toBankersRound
                (number * (10 : ℚ) ^ (sign * totalSteps * targetUnitItem.gap)) 1,
              unit, targetSuffices.getLast?⟩

/-- `Math.min(...xs)` over a non-empty array (the empty case, JS `Infinity`,
sits behind the `numbers.length === 0` guard and is given the junk value
0). -/
def jsMinList : List ℚ → ℚ
  | [] => 0
  | x :: xs => xs.foldl min x

/-- `Math.max(...xs)` over a non-empty array, as in `jsMinList`. -/
def jsMaxList : List ℚ → ℚ
  | [] => 0
  | x :: xs => xs.foldl max x

/-- `result[suffix] = (result[suffix] ?? 0) + 1` on a JS object used as an
insertion-ordered tally (JS objects preserve string-key insertion order). -/
def tallyInsert : List (Option String × ℕ) → Option String → List (Option String × ℕ)
  | [], key => [(key, 1)]
  | (k, c) :: rest, key =>
    if k = key then (k, c + 1) :: rest else (k, c) :: tallyInsert rest key

/-- `Object.entries(freqCount).sort((a, b) => b[1] - a[1])[0]`: JS sort is
stable, so the head of the sorted array is the earliest-inserted entry with
the maximal count. -/
def firstMaxEntry : List (Option String × ℕ) → Option (Option String × ℕ)
  | [] => none
  | e :: rest =>
    match firstMaxEntry rest with
    | none => some e
    | some b => if b.2 > e.2 then some b else some e

/-- The `reduce` of the `freq` optimizer: fit every value and tally the
resulting suffixes, propagating any error thrown by the fit. -/
def freqTally (unitMap : UnitMap) (unit : String) (fromSuffix : String)
    (offset : Bool) :
    List ℚ → List (Option String × ℕ) → Except UnitError (List (Option String × ℕ))
  | [], tally => .ok tally
  | n :: rest, tally =>
    match convertUnitToFit n unitMap unit (some fromSuffix) offset with
    | .error e => .error e
    | .ok converted =>
      freqTally unitMap unit fromSuffix offset rest (tallyInsert tally converted.suffix)

/-- JS nullish coalescing `a ?? b` on the `from` argument: unlike truthiness,
it keeps an empty string. -/
def jsNullish (fromOpt : Option String) (fallback : Option String) : Option String :=
  match fromOpt with
  | some s => some s
  | none => fallback

/-- `getOptimalUnit` from `getOptimalUnit.ts`.  Note the two distinct
resolutions of `from`: `fromIndex` uses JS truthiness (empty string falls back
to `baseIndex`) while `fromSuffix` uses nullish coalescing
(`from ?? suffices[baseIndex]`, which keeps an empty string). -/
def getOptimalUnit (numbers : List ℚ) (unitMap : UnitMap) (unit : String)
    (fromOpt : Option String) (offset : Bool) (optimizer : String) :
    Except UnitError (Option String) :=
  match unitMap unit with
  | none => .error (.invalidUnit unit)
  | some targetUnitItem =>
    let fromIndex : ℤ :=
      resolveFromIndex targetUnitItem.suffixes targetUnitItem.baseIndex fromOpt
    if fromIndex = -1 then .error (.invalidFromSuffix fromOpt)
    else
      match jsNullish fromOpt targetUnitItem.suffixes[targetUnitItem.baseIndex]? with
      | none => .error (.invalidFromSuffix fromOpt)
      | some fromSuffix =>
        match numbers with
        | [] => .ok (some fromSuffix)
        | n0 :: rest =>
          let absNumbers : List ℚ := (n0 :: rest).map (fun e => |e|)
          if optimizer = "min" ∨ optimizer = "max" then
            let targetNumber : ℚ :=
              if optimizer = "min" then jsMinList absNumbers else jsMaxList absNumbers
            match convertUnitToFit targetNumber unitMap unit (some fromSuffix) offset with
            | .error e => .error e
            | .ok converted => .ok converted.suffix
          else if optimizer = "freq" then
            match freqTally unitMap unit fromSuffix offset absNumbers [] with
            | .error e => .error e
            | .ok tally =>
              match firstMaxEntry tally with
              | some entry => .ok entry.1
              | none => .ok none
          else .error (.unknownOptimizer optimizer)

/-! The numeric validator (`src/number/checkMaybeNumericInput.ts`) and the
validated entry points of the rounding engine.  A JS number is finite, `NaN`
or an infinity; a string is modelled by the JS number it coerces to via
`Number(s)`, which is all the library ever observes of it. -/

/-- A JS `number` value. -/
inductive JSNum where
  | fin (q : ℚ)
  | nan
  | posInf
  | negInf
deriving DecidableEq

/-- The TS `MaybeNumericInput` type `number | string | undefined | null`. -/
inductive MaybeNumericInput where
  | num (n : JSNum)
  | str (coerced : JSNum)
  | null
  | undef

/-- The two failure modes of the validator: wrong runtime type, or a numeric
coercion that is `NaN`. -/
inductive InputError where
  | notNumberOrString
  | nanInput
deriving DecidableEq

/-- JS `Number(input)`: numbers coerce to themselves, a string to its parsed
value, `null` to 0 and `undefined` to `NaN`.  (The `null` case is unreachable
behind the validator, which rejects `null` on its runtime type.) -/
def jsNumberOf : MaybeNumericInput → JSNum
  | .num n => n
  | .str c => c
  | .null => .fin 0
  | .undef => .nan

/-- `checkMaybeNumericInput`: reject anything that is neither a number nor a
string by runtime type, then reject a `NaN` numeric coercion.  Infinite
values are not rejected (`Number.isNaN(Infinity)` is `false`). -/
def checkMaybeNumericInput : MaybeNumericInput → Except InputError Unit
  | .num n => if n = JSNum.nan then .error .nanInput else .ok ()
  | .str c => if c = JSNum.nan then .error .nanInput else .ok ()
  | .null => .error .notNumberOrString
  | .undef => .error .notNumberOrString

/-- `toBankersRound` including its validator gate, on an arbitrary
`MaybeNumericInput`.  An infinite operand propagates through the JS
arithmetic (`Infinity * c`, `toFixed`, `Math.floor`, `Math.round` all return
the same infinity), so the call returns it instead of failing. -/
def toBankersRoundChecked (input : MaybeNumericInput) (precision : ℤ) :
    Except InputError JSNum :=
  match checkMaybeNumericInput input with
  | .error e => .error e
  | .ok _ =>
    match jsNumberOf input with
    | .fin q => .ok (.fin (toBankersRound q precision))
    | .nan => .ok .nan
    | .posInf => .ok .posInf
    | .negInf => .ok .negInf

/-- `roundHalfAwayFromZero` including its validator gate, with the same
infinity propagation as `toBankersRoundChecked`. -/
def roundHalfAwayFromZeroChecked (input : MaybeNumericInput) (precision : ℤ) :
    Except InputError JSNum :=
  match checkMaybeNumericInput input with
  | .error e => .error e
  | .ok _ =>
    match jsNumberOf input with
    | .fin q => .ok (.fin (roundHalfAwayFromZero q precision))
    | .nan => .ok .nan
    | .posInf => .ok .posInf
    | .negInf => .ok .negInf

theorem bankersRoundCore_zero (q : ℚ) :
    bankersRoundCore q 0 = bankersPost (jsToFixed8 q) := by
  simp [bankersRoundCore, bankersPost]

theorem bankersRoundCore_of_ne (q : ℚ) (p : ℤ) (hp : p ≠ 0) :
    bankersRoundCore q p = bankersPost (jsToFixed8 (q * 10 ^ p)) / 10 ^ p := by
  simp [bankersRoundCore, bankersPost, hp]

theorem toBankersRound_of_one_le (q : ℚ) (p : ℤ) (h : 1 ≤ |q|) :
    toBankersRound q p = bankersRoundCore q p := by
  have hq : q ≠ 0 := by
    intro h0
    rw [h0] at h
    norm_num at h
  rw [toBankersRound, if_neg hq, if_neg (not_lt.2 h)]

theorem toBankersRound_small (q : ℚ) (p : ℤ) (h0 : q ≠ 0) (h1 : |q| < 1) :
    toBankersRound q p =
      bankersRoundCore q (max (getSignificantDigitIndex |q|) p) := by
  rw [toBankersRound, if_neg h0, if_pos h1]

/-- `toFixed(8)` is the identity on rationals that already have at most
8 decimal places. -/
theorem jsToFixed8_eq_self (q : ℚ) (h : q * 10 ^ 8 = (⌊q * 10 ^ 8⌋ : ℚ)) :
    jsToFixed8 q = q := by
  have key : ∀ r : ℚ, 0 ≤ r → r * 10 ^ 8 = (⌊r * 10 ^ 8⌋ : ℚ) →
      (⌊r * 10 ^ 8 + 1 / 2⌋ : ℚ) / 10 ^ 8 = r := by
    intro r _ hr
    rw [hr, add_comm, Int.floor_add_int]
    push_cast
    rw [show (⌊(1 : ℚ) / 2⌋ : ℤ) = 0 by norm_num]
    push_cast
    rw [zero_add, ← hr]
    field_simp
  unfold jsToFixed8
  by_cases hq : q < 0
  · rw [if_pos hq]
    have h' : -q * 10 ^ 8 = (⌊-q * 10 ^ 8⌋ : ℚ) := by
      rw [neg_mul, Int.floor_neg, h, Int.ceil_intCast]
      push_cast
      ring
    rw [key (-q) (by linarith) h']
    ring
  · rw [if_neg hq]
    exact key q (by linarith) h

theorem bankersPost_intCast (n : ℤ) : bankersPost (n : ℚ) = n := by
  unfold bankersPost
  rw [Int.floor_intCast]
  rw [if_neg]
  · unfold jsRound
    rw [add_comm, Int.floor_add_int]
    norm_num
  · rw [sub_self]
    intro hc
    have := hc.1
    norm_num at this

theorem bankersPost_int_add_half (n : ℤ) :
    bankersPost ((n : ℚ) + 1 / 2) =
      if n % 2 = 0 then (n : ℚ) else ((n + 1 : ℤ) : ℚ) := by
  unfold bankersPost
  have hfl : ⌊(n : ℚ) + 1 / 2⌋ = n := by
    rw [add_comm, Int.floor_add_int]
    norm_num
  rw [hfl]
  rw [if_pos]
  norm_num

theorem natLog10F_spec : ∀ fuel n : ℕ, 1 ≤ n → n ≤ fuel →
    10 ^ natLog10F fuel n ≤ n ∧ n < 10 ^ (natLog10F fuel n + 1) := by
  intro fuel
  induction fuel with
  | zero => intro n h1 h2; omega
  | succ f ih =>
    intro n h1 h2
    rw [natLog10F, dif_neg (Nat.succ_ne_zero f)]
    by_cases hn : n < 10
    · rw [if_pos hn]
      constructor
      · simpa using h1
      · simpa using hn
    · rw [if_neg hn]
      have h10 : 10 ≤ n := le_of_not_lt hn
      have hdiv1 : 1 ≤ n / 10 := (Nat.one_le_div_iff (by norm_num)).2 h10
      have hdivlt : n / 10 < n := Nat.div_lt_self (by omega) (by norm_num)
      have hdivf : n / 10 ≤ f := by omega
      obtain ⟨hlo, hhi⟩ := ih (n / 10) hdiv1 hdivf
      have hmod := Nat.div_add_mod n 10
      have hmodlt : n % 10 < 10 := Nat.mod_lt _ (by norm_num)
      constructor
      · calc 10 ^ (natLog10F f (n / 10) + 1)
            = 10 ^ natLog10F f (n / 10) * 10 := by ring
          _ ≤ (n / 10) * 10 := Nat.mul_le_mul_right _ hlo
          _ ≤ n := by omega
      · calc n < (n / 10 + 1) * 10 := by omega
          _ ≤ 10 ^ (natLog10F f (n / 10) + 1) * 10 := Nat.mul_le_mul_right _ (by omega)
          _ = 10 ^ (natLog10F f (n / 10) + 1 + 1) := by ring

theorem getSignificantDigitIndex_pos (q : ℚ) (h0 : 0 < q) (h1 : q < 1) :
    1 ≤ getSignificantDigitIndex q := by
  unfold getSignificantDigitIndex floorLog10
  rw [if_neg (not_le.2 h1), if_pos h0]
  omega

/-- The defining lower bound of the significant-digit index: multiplying a
magnitude in `(0, 1)` by ten to its significant-digit index brings it to at
least 1. -/
theorem one_le_mul_zpow_sig (q : ℚ) (h0 : 0 < q) (h1 : q < 1) :
    1 ≤ q * (10 : ℚ) ^ getSignificantDigitIndex q := by
  have hnum : 0 < q.num := Rat.num_pos.2 h0
  have hab : q.num < (q.den : ℤ) := by
    have hden : (0 : ℚ) < (q.den : ℚ) := by
      exact_mod_cast q.den_pos
    have hlt : (q.num : ℚ) < (q.den : ℚ) := by
      have h1' := h1
      rw [show q = (q.num : ℚ) / (q.den : ℚ) from (Rat.num_div_den q).symm,
        div_lt_one hden] at h1'
      exact h1'
    exact_mod_cast hlt
  set a : ℕ := q.num.toNat with ha
  have haz : (a : ℤ) = q.num := Int.toNat_of_nonneg (le_of_lt hnum)
  have ha1 : 1 ≤ a := by omega
  have hablt : a < q.den := by omega
  set c : ℕ := (q.den - 1) / a with hc
  have hc1 : 1 ≤ c := (Nat.one_le_div_iff (by omega)).2 (by omega)
  obtain ⟨_, hhi⟩ := natLog10F_spec c c hc1 le_rfl
  have hsig : getSignificantDigitIndex q = ((natLog10 c : ℤ) + 1) := by
    unfold getSignificantDigitIndex floorLog10
    rw [if_neg (not_le.2 h1), if_pos h0]
    ring
  rw [hsig]
  have hbound : q.den ≤ a * 10 ^ (natLog10 c + 1) := by
    have : (q.den - 1) / a < 10 ^ (natLog10 c + 1) := by
      unfold natLog10
      exact hhi
    have h' : q.den - 1 < 10 ^ (natLog10 c + 1) * a :=
      (Nat.div_lt_iff_lt_mul (by omega)).1 this
    calc q.den ≤ 10 ^ (natLog10 c + 1) * a := by omega
      _ = a * 10 ^ (natLog10 c + 1) := by ring
  have hz : (10 : ℚ) ^ ((natLog10 c : ℤ) + 1) = ((10 ^ (natLog10 c + 1) : ℕ) : ℚ) := by
    rw [show ((natLog10 c : ℤ) + 1) = ((natLog10 c + 1 : ℕ) : ℤ) by push_cast; ring,
      zpow_natCast]
    push_cast
    ring
  rw [hz]
  rw [show q = (q.num : ℚ) / (q.den : ℚ) from (Rat.num_div_den q).symm]
  rw [div_mul_eq_mul_div, le_div_iff₀ (by positivity)]
  have : ((q.den : ℚ)) ≤ (a : ℚ) * ((10 ^ (natLog10 c + 1) : ℕ) : ℚ) := by
    have := hbound
    push_cast
    exact_mod_cast this
  calc (1 : ℚ) * (q.den : ℚ) = (q.den : ℚ) := by ring
    _ ≤ (a : ℚ) * ((10 ^ (natLog10 c + 1) : ℕ) : ℚ) := this
    _ = (q.num : ℚ) * ((10 ^ (natLog10 c + 1) : ℕ) : ℚ) := by
        rw [show ((a : ℚ)) = ((q.num : ℚ)) by exact_mod_cast congrArg Int.cast haz]

theorem jsToFixed8_nonneg (x : ℚ) (h : 0 ≤ x) : 0 ≤ jsToFixed8 x := by
  unfold jsToFixed8
  rw [if_neg (not_lt.2 h)]
  have : (0 : ℤ) ≤ ⌊x * 10 ^ 8 + 1 / 2⌋ := by
    apply Int.le_floor.2
    push_cast
    positivity
  positivity

theorem one_le_jsToFixed8 (x : ℚ) (h : 1 ≤ x) : 1 ≤ jsToFixed8 x := by
  unfold jsToFixed8
  rw [if_neg (by intro hc; linarith)]
  rw [le_div_iff₀ (by positivity)]
  have : ((10 ^ 8 : ℤ) : ℚ) ≤ (⌊x * 10 ^ 8 + 1 / 2⌋ : ℚ) := by
    apply Int.cast_le.2
    apply Int.le_floor.2
    push_cast
    nlinarith
  calc (1 : ℚ) * 10 ^ 8 = ((10 ^ 8 : ℤ) : ℚ) := by push_cast; ring
    _ ≤ (⌊x * 10 ^ 8 + 1 / 2⌋ : ℚ) := this

theorem jsToFixed8_neg_eq (x : ℚ) : jsToFixed8 (-x) = -jsToFixed8 x := by
  rcases lt_trichotomy x 0 with hx | hx | hx
  · unfold jsToFixed8
    rw [if_neg (by linarith), if_pos hx]
    ring_nf
  · rw [hx]
    unfold jsToFixed8
    norm_num
  · unfold jsToFixed8
    rw [if_pos (by linarith), if_neg (not_lt.2 (le_of_lt hx))]
    ring_nf

theorem one_le_abs_jsToFixed8 (x : ℚ) (h : 1 ≤ |x|) : 1 ≤ |jsToFixed8 x| := by
  rcases le_abs.1 h with hx | hx
  · have := one_le_jsToFixed8 x hx
    calc (1 : ℚ) ≤ jsToFixed8 x := this
      _ ≤ |jsToFixed8 x| := le_abs_self _
  · have h1 : 1 ≤ jsToFixed8 (-x) := one_le_jsToFixed8 (-x) hx
    rw [jsToFixed8_neg_eq] at h1
    calc (1 : ℚ) ≤ -jsToFixed8 x := h1
      _ ≤ |jsToFixed8 x| := neg_le_abs _

theorem jsRound_eq_floor_add (s : ℚ) :
    jsRound s = ((⌊s⌋ + ⌊Int.fract s + 1 / 2⌋ : ℤ) : ℚ) := by
  unfold jsRound
  rw [show s + 1 / 2 = (⌊s⌋ : ℚ) + (Int.fract s + 1 / 2) by rw [Int.fract]; ring,
    Int.floor_int_add]

theorem jsRound_of_fract_lt (s : ℚ) (h : Int.fract s < 1 / 2) :
    jsRound s = (⌊s⌋ : ℚ) := by
  rw [jsRound_eq_floor_add]
  have : ⌊Int.fract s + 1 / 2⌋ = 0 := by
    apply Int.floor_eq_zero_iff.2
    rw [Set.mem_Ico]
    constructor
    · linarith [Int.fract_nonneg s]
    · linarith
  rw [this]
  push_cast
  ring

theorem jsRound_of_half_le (s : ℚ) (h : 1 / 2 ≤ Int.fract s) :
    jsRound s = ((⌊s⌋ + 1 : ℤ) : ℚ) := by
  rw [jsRound_eq_floor_add]
  have : ⌊Int.fract s + 1 / 2⌋ = 1 := by
    have h1 := Int.fract_lt_one s
    rw [Int.floor_eq_iff]
    constructor
    · push_cast
      linarith
    · push_cast
      linarith
  rw [this]

theorem one_le_abs_bankersPost (s : ℚ) (h : 1 ≤ |s|) : 1 ≤ |bankersPost s| := by
  unfold bankersPost
  rcases le_abs.1 h with hs | hs
  · have hfl : 1 ≤ ⌊s⌋ := by
      rw [show (1 : ℤ) = ⌊(1 : ℚ)⌋ by norm_num]
      exact Int.floor_le_floor hs
    by_cases htie : 1 / 2 - 1 / 10 ^ 8 < s - ⌊s⌋ ∧ s - ⌊s⌋ < 1 / 2 + 1 / 10 ^ 8
    · rw [if_pos htie]
      by_cases hev : ⌊s⌋ % 2 = 0
      · rw [if_pos hev]
        rw [abs_of_nonneg (by exact_mod_cast le_trans (by norm_num) hfl)]
        exact_mod_cast hfl
      · rw [if_neg hev]
        have : (1 : ℤ) ≤ ⌊s⌋ + 1 := by omega
        rw [abs_of_nonneg (by exact_mod_cast le_trans (by norm_num) this)]
        exact_mod_cast this
    · rw [if_neg htie]
      have : (1 : ℤ) ≤ ⌊s + 1 / 2⌋ := by
        calc (1 : ℤ) ≤ ⌊s⌋ := hfl
          _ ≤ ⌊s + 1 / 2⌋ := Int.floor_le_floor (by linarith)
      unfold jsRound
      rw [abs_of_nonneg (by exact_mod_cast le_trans (by norm_num) this)]
      exact_mod_cast this
  · have hs' : s ≤ -1 := by linarith
    have hfl : ⌊s⌋ ≤ -1 := by
      rw [show (-1 : ℤ) = ⌊(-1 : ℚ)⌋ by norm_num]
      exact Int.floor_le_floor hs'
    by_cases htie : 1 / 2 - 1 / 10 ^ 8 < s - ⌊s⌋ ∧ s - ⌊s⌋ < 1 / 2 + 1 / 10 ^ 8
    · rw [if_pos htie]
      have hfl2 : ⌊s⌋ ≤ -2 := by
        by_contra hcon
        have hm1 : ⌊s⌋ = -1 := by omega
        have h1 := htie.1
        have h2 := Int.floor_le s
        rw [hm1] at h1 h2
        push_cast at h1 h2
        linarith
      by_cases hev : ⌊s⌋ % 2 = 0
      · rw [if_pos hev]
        have hle : (⌊s⌋ : ℚ) ≤ -1 := by exact_mod_cast hfl
        rw [abs_of_nonpos (by linarith)]
        linarith
      · rw [if_neg hev]
        have : (⌊s⌋ + 1 : ℤ) ≤ -1 := by omega
        have hle : ((⌊s⌋ + 1 : ℤ) : ℚ) ≤ -1 := by exact_mod_cast this
        rw [abs_of_nonpos (by linarith)]
        linarith
    · rw [if_neg htie]
      have hint : ⌊s + 1 / 2⌋ ≤ -1 := by
        calc ⌊s + 1 / 2⌋ ≤ ⌊(-1 / 2 : ℚ)⌋ := Int.floor_le_floor (by linarith)
          _ = -1 := by norm_num
      unfold jsRound
      have hle : (⌊s + 1 / 2⌋ : ℚ) ≤ -1 := by exact_mod_cast hint
      rw [abs_of_nonpos (by linarith)]
      linarith

theorem bankersRoundCore_ne_zero (q : ℚ) (e : ℤ) (he : 1 ≤ e)
    (habs : 1 ≤ |q * 10 ^ e|) : bankersRoundCore q e ≠ 0 := by
  rw [bankersRoundCore_of_ne q e (by omega)]
  have h1 : 1 ≤ |jsToFixed8 (q * 10 ^ e)| := one_le_abs_jsToFixed8 _ habs
  have h2 : 1 ≤ |bankersPost (jsToFixed8 (q * 10 ^ e))| := one_le_abs_bankersPost _ h1
  have h3 : bankersPost (jsToFixed8 (q * 10 ^ e)) ≠ 0 := by
    intro hc
    rw [hc] at h2
    norm_num at h2
  exact div_ne_zero h3 (by positivity)

/-- C7.  For a nonzero value of magnitude below one, `toBankersRound` runs the
rounding body at effective precision `max (sigDigitIndex |value|) precision`,
and the result is never zero. -/
theorem toBankersRound_small_adaptive_nonzero (q : ℚ) (p : ℤ)
    (h0 : q ≠ 0) (h1 : |q| < 1) :
    toBankersRound q p =
      bankersRoundCore q (max (getSignificantDigitIndex |q|) p) ∧
    toBankersRound q p ≠ 0 := by
  have habs : 0 < |q| := abs_pos.2 h0
  have hsig : 1 ≤ getSignificantDigitIndex |q| := getSignificantDigitIndex_pos _ habs h1
  set e : ℤ := max (getSignificantDigitIndex |q|) p with hedef
  have he1 : 1 ≤ e := le_trans hsig (le_max_left _ _)
  have hes : getSignificantDigitIndex |q| ≤ e := le_max_left _ _
  have hone : 1 ≤ |q * 10 ^ e| := by
    rw [abs_mul, abs_of_pos (zpow_pos (by norm_num : (0:ℚ) < 10) e)]
    have hbase := one_le_mul_zpow_sig |q| habs h1
    have hsplit : (10 : ℚ) ^ e =
        (10 : ℚ) ^ getSignificantDigitIndex |q| * (10 : ℚ) ^ (e - getSignificantDigitIndex |q|) := by
      rw [← zpow_add₀ (by norm_num : (10:ℚ) ≠ 0)]
      ring_nf
    have hfac : 1 ≤ (10 : ℚ) ^ (e - getSignificantDigitIndex |q|) :=
      one_le_zpow₀ (by norm_num) (by omega)
    calc (1 : ℚ) = 1 * 1 := by ring
      _ ≤ (|q| * (10 : ℚ) ^ getSignificantDigitIndex |q|) *
            (10 : ℚ) ^ (e - getSignificantDigitIndex |q|) :=
          mul_le_mul hbase hfac (by norm_num) (by positivity)
      _ = |q| * (10 : ℚ) ^ e := by rw [hsplit]; ring
  refine ⟨toBankersRound_small q p h0 h1, ?_⟩
  rw [toBankersRound_small q p h0 h1]
  exact bankersRoundCore_ne_zero q e he1 hone

theorem jsToFixed8_zero : jsToFixed8 0 = 0 := by
  unfold jsToFixed8
  norm_num

theorem jsRound_zero : jsRound 0 = 0 := by
  unfold jsRound
  norm_num

theorem roundHalfAwayFromZero_neg (x : ℚ) (p : ℤ) :
    roundHalfAwayFromZero (-x) p = -roundHalfAwayFromZero x p := by
  simp only [roundHalfAwayFromZero, abs_neg]
  rcases lt_trichotomy x 0 with hx | hx | hx
  · rw [if_neg (not_lt.2 (by linarith : (0 : ℚ) ≤ -x)), if_pos hx]
    ring
  · rw [hx, neg_zero, abs_zero, zero_mul, jsToFixed8_zero, jsRound_zero]
    norm_num
  · rw [if_pos (by linarith : -x < 0), if_neg (not_lt.2 (le_of_lt hx))]
    ring

/-- C4.  `roundHalfAwayFromZero` resolves ties away from zero regardless of
sign: when the drift-corrected scaled magnitude has fractional part exactly
`1/2`, the magnitude is rounded up and the original sign restored; the
function is odd (`f (-x) = -f x`); and `roundHalfAwayFromZero (-5/2) 0 = -3`. -/
theorem roundHalfAwayFromZero_ties_away_from_zero (q : ℚ) (p : ℤ)
    (htie : jsToFixed8 (|q| * 10 ^ p) - ⌊jsToFixed8 (|q| * 10 ^ p)⌋ = 1 / 2) :
    roundHalfAwayFromZero q p =
      (if q < 0 then (-1 : ℚ) else 1) *
        ((⌊jsToFixed8 (|q| * 10 ^ p)⌋ + 1 : ℤ) : ℚ) / 10 ^ p ∧
    |roundHalfAwayFromZero q p| =
      ((⌊jsToFixed8 (|q| * 10 ^ p)⌋ + 1 : ℤ) : ℚ) / 10 ^ p ∧
    (∀ x : ℚ, ∀ r : ℤ, roundHalfAwayFromZero (-x) r = -roundHalfAwayFromZero x r) ∧
    roundHalfAwayFromZero (-5/2) 0 = -3 := by
  have hfr : 1 / 2 ≤ Int.fract (jsToFixed8 (|q| * 10 ^ p)) := by
    rw [Int.fract]
    linarith
  have hround : jsRound (jsToFixed8 (|q| * 10 ^ p)) =
      ((⌊jsToFixed8 (|q| * 10 ^ p)⌋ + 1 : ℤ) : ℚ) :=
    jsRound_of_half_le _ hfr
  have hmain : roundHalfAwayFromZero q p =
      (if q < 0 then (-1 : ℚ) else 1) *
        ((⌊jsToFixed8 (|q| * 10 ^ p)⌋ + 1 : ℤ) : ℚ) / 10 ^ p := by
    simp only [roundHalfAwayFromZero]
    rw [hround]
  refine ⟨hmain, ?_, ?_, ?_⟩
  · have hs0 : 0 ≤ jsToFixed8 (|q| * 10 ^ p) :=
      jsToFixed8_nonneg _ (by positivity)
    have hn0 : (0 : ℤ) ≤ ⌊jsToFixed8 (|q| * 10 ^ p)⌋ := Int.floor_nonneg.2 hs0
    have hpos : (0 : ℚ) ≤ ((⌊jsToFixed8 (|q| * 10 ^ p)⌋ + 1 : ℤ) : ℚ) / 10 ^ p := by
      have : (0 : ℚ) ≤ ((⌊jsToFixed8 (|q| * 10 ^ p)⌋ + 1 : ℤ) : ℚ) := by
        exact_mod_cast Int.le_of_lt (by omega)
      positivity
    rw [hmain]
    by_cases hq : q < 0
    · rw [if_pos hq]
      rw [show (-1 : ℚ) * ((⌊jsToFixed8 (|q| * 10 ^ p)⌋ + 1 : ℤ) : ℚ) / 10 ^ p =
          -(((⌊jsToFixed8 (|q| * 10 ^ p)⌋ + 1 : ℤ) : ℚ) / 10 ^ p) by ring]
      rw [abs_neg, abs_of_nonneg hpos]
    · rw [if_neg hq, one_mul, abs_of_nonneg hpos]
  · intro x r
    exact roundHalfAwayFromZero_neg x r
  · simp only [roundHalfAwayFromZero]
    rw [show |(-5/2 : ℚ)| = 5/2 by rw [abs_of_nonpos] <;> norm_num]
    rw [if_pos (by norm_num : (-5/2 : ℚ) < 0)]
    rw [show (5/2 : ℚ) * 10 ^ (0 : ℤ) = 5/2 by norm_num]
    rw [jsToFixed8_eq_self _ (by norm_num)]
    unfold jsRound
    norm_num

/-- C3.  At precision 0, `toBankersRound` resolves near-ties of the
drift-corrected scaled value (fractional part within `1e-8` of `1/2`) to the
even neighbour of its floor — hence an even integer — and rounds every other
value to the nearest integer via `Math.round`; in particular
`toBankersRound 2.5 = 2`, `toBankersRound 3.5 = 4`, `toBankersRound 4.5 = 4`. -/
theorem toBankersRound_precision0_ties_to_even (q : ℚ) (h1 : 1 ≤ |q|) :
    (∀ s : ℚ, s = jsToFixed8 q →
      ((1 / 2 - 1 / 10 ^ 8 < s - ⌊s⌋ ∧ s - ⌊s⌋ < 1 / 2 + 1 / 10 ^ 8) →
        (toBankersRound q 0 =
          if ⌊s⌋ % 2 = 0 then (⌊s⌋ : ℚ) else ((⌊s⌋ + 1 : ℤ) : ℚ)) ∧
        ∃ m : ℤ, toBankersRound q 0 = (m : ℚ) ∧ 2 ∣ m) ∧
      (¬(1 / 2 - 1 / 10 ^ 8 < s - ⌊s⌋ ∧ s - ⌊s⌋ < 1 / 2 + 1 / 10 ^ 8) →
        toBankersRound q 0 = jsRound s ∧ |toBankersRound q 0 - s| < 1 / 2)) ∧
    (∀ q' : ℚ, q' ≠ 0 → |q'| < 1 →
      ∀ s : ℚ, s = jsToFixed8 (q' * 10 ^ max (getSignificantDigitIndex |q'|) 0) →
        ((1 / 2 - 1 / 10 ^ 8 < s - ⌊s⌋ ∧ s - ⌊s⌋ < 1 / 2 + 1 / 10 ^ 8) →
          toBankersRound q' 0 =
            (if ⌊s⌋ % 2 = 0 then (⌊s⌋ : ℚ) else ((⌊s⌋ + 1 : ℤ) : ℚ)) /
              10 ^ max (getSignificantDigitIndex |q'|) 0) ∧
        (¬(1 / 2 - 1 / 10 ^ 8 < s - ⌊s⌋ ∧ s - ⌊s⌋ < 1 / 2 + 1 / 10 ^ 8) →
          toBankersRound q' 0 =
            jsRound s / 10 ^ max (getSignificantDigitIndex |q'|) 0)) ∧
    toBankersRound (5/2) 0 = 2 ∧ toBankersRound (7/2) 0 = 4 ∧
    toBankersRound (9/2) 0 = 4 := by
  refine ⟨?_, ?_, ?_, ?_, ?_⟩
  · intro s hs
    have hmain : toBankersRound q 0 = bankersPost s := by
      rw [toBankersRound_of_one_le q 0 h1, bankersRoundCore_zero, ← hs]
    constructor
    · intro htie
      have hpost : bankersPost s =
          if ⌊s⌋ % 2 = 0 then (⌊s⌋ : ℚ) else ((⌊s⌋ + 1 : ℤ) : ℚ) := by
        unfold bankersPost
        rw [if_pos htie]
      refine ⟨hmain.trans hpost, ?_⟩
      by_cases hev : ⌊s⌋ % 2 = 0
      · exact ⟨⌊s⌋, by rw [hmain, hpost, if_pos hev], by omega⟩
      · exact ⟨⌊s⌋ + 1, by rw [hmain, hpost, if_neg hev], by omega⟩
    · intro htie
      have hpost : bankersPost s = jsRound s := by
        unfold bankersPost
        rw [if_neg htie]
      refine ⟨hmain.trans hpost, ?_⟩
      rw [hmain, hpost]
      have hlo := Int.floor_le s
      have hhi := Int.lt_floor_add_one s
      rcases not_and_or.1 htie with hside | hside
      · have hfr : Int.fract s < 1 / 2 := by
          rw [Int.fract]
          push_neg at hside
          have heps : (0 : ℚ) < 1 / 10 ^ 8 := by norm_num
          linarith
        rw [jsRound_of_fract_lt s hfr]
        rw [Int.fract] at hfr
        rw [abs_of_nonpos (by linarith)]
        linarith
      · have hfr : 1 / 2 ≤ Int.fract s := by
          rw [Int.fract]
          push_neg at hside
          have heps : (0 : ℚ) < 1 / 10 ^ 8 := by norm_num
          linarith
        rw [jsRound_of_half_le s hfr]
        push_neg at hside
        push_cast
        rw [abs_of_nonneg (by linarith)]
        have heps : (0 : ℚ) < 1 / 10 ^ 8 := by norm_num
        linarith
  · intro q' h0 h1' s hs
    have hsig : 1 ≤ getSignificantDigitIndex |q'| :=
      getSignificantDigitIndex_pos _ (abs_pos.2 h0) h1'
    have hmax : max (getSignificantDigitIndex |q'|) 0 ≠ 0 := by omega
    have hmain : toBankersRound q' 0 =
        bankersPost s / 10 ^ max (getSignificantDigitIndex |q'|) 0 := by
      rw [toBankersRound_small q' 0 h0 h1', bankersRoundCore_of_ne _ _ hmax, hs]
    constructor
    · intro htie
      rw [hmain]
      unfold bankersPost
      rw [if_pos htie]
    · intro htie
      rw [hmain]
      unfold bankersPost
      rw [if_neg htie]
  · rw [toBankersRound_of_one_le _ _ (by rw [abs_of_nonneg] <;> norm_num),
      bankersRoundCore_zero, jsToFixed8_eq_self _ (by norm_num),
      show (5/2 : ℚ) = ((2 : ℤ) : ℚ) + 1/2 by norm_num, bankersPost_int_add_half]
    norm_num
  · rw [toBankersRound_of_one_le _ _ (by rw [abs_of_nonneg] <;> norm_num),
      bankersRoundCore_zero, jsToFixed8_eq_self _ (by norm_num),
      show (7/2 : ℚ) = ((3 : ℤ) : ℚ) + 1/2 by norm_num, bankersPost_int_add_half]
    norm_num
  · rw [toBankersRound_of_one_le _ _ (by rw [abs_of_nonneg] <;> norm_num),
      bankersRoundCore_zero, jsToFixed8_eq_self _ (by norm_num),
      show (9/2 : ℚ) = ((4 : ℤ) : ℚ) + 1/2 by norm_num, bankersPost_int_add_half]
    norm_num

theorem toBankersRound_precision0_ties_to_even_witness :
    (1 ≤ |(5/2 : ℚ)|) ∧ toBankersRound (5/2) 0 = 2 :=
  ⟨by rw [abs_of_nonneg] <;> norm_num,
   (toBankersRound_precision0_ties_to_even (5/2)
     (by rw [abs_of_nonneg] <;> norm_num)).2.2.1⟩

theorem roundHalfAwayFromZero_ties_away_from_zero_witness :
    jsToFixed8 (|(-5/2 : ℚ)| * 10 ^ (0 : ℤ)) -
      (⌊jsToFixed8 (|(-5/2 : ℚ)| * 10 ^ (0 : ℤ))⌋ : ℚ) = 1 / 2 ∧
    roundHalfAwayFromZero (-5/2) 0 = -3 := by
  have htie : jsToFixed8 (|(-5/2 : ℚ)| * 10 ^ (0 : ℤ)) -
      (⌊jsToFixed8 (|(-5/2 : ℚ)| * 10 ^ (0 : ℤ))⌋ : ℚ) = 1 / 2 := by
    rw [show |(-5/2 : ℚ)| * 10 ^ (0 : ℤ) = 5/2 by
        rw [abs_of_nonpos] <;> norm_num,
      jsToFixed8_eq_self _ (by norm_num)]
    norm_num
  exact ⟨htie, (roundHalfAwayFromZero_ties_away_from_zero (-5/2) 0 htie).2.2.2⟩

theorem toBankersRound_small_adaptive_nonzero_witness :
    ((1/800 : ℚ) ≠ 0 ∧ |(1/800 : ℚ)| < 1) ∧ toBankersRound (1/800) 1 ≠ 0 :=
  ⟨⟨by norm_num, by rw [abs_of_nonneg] <;> norm_num⟩,
   (toBankersRound_small_adaptive_nonzero (1/800) 1 (by norm_num)
     (by rw [abs_of_nonneg] <;> norm_num)).2⟩

theorem natLog10F_lt (fuel n : ℕ) (hf : fuel ≠ 0) (h : n < 10) :
    natLog10F fuel n = 0 := by
  rw [natLog10F, dif_neg hf, if_pos h]

theorem natLog10F_ge (fuel n : ℕ) (hf : fuel ≠ 0) (h : ¬n < 10) :
    natLog10F fuel n = natLog10F (fuel - 1) (n / 10) + 1 := by
  rw [natLog10F, dif_neg hf, if_neg h]

theorem intCast_mul_pow8_floor (m : ℤ) :
    ((m : ℚ)) * 10 ^ 8 = (⌊((m : ℚ)) * 10 ^ 8⌋ : ℚ) := by
  rw [show ((m : ℚ)) * 10 ^ 8 = ((m * 10 ^ 8 : ℤ) : ℚ) by push_cast; ring,
    Int.floor_intCast]

theorem toBankersRound_intCast_one (n : ℤ) : toBankersRound (n : ℚ) 1 = n := by
  rcases eq_or_ne n 0 with h0 | h0
  · rw [h0]
    norm_num [toBankersRound]
  · have h1 : 1 ≤ |(n : ℚ)| := by
      rw [show |(n : ℚ)| = ((|n| : ℤ) : ℚ) by push_cast; ring]
      exact_mod_cast Int.one_le_abs h0
    rw [toBankersRound_of_one_le _ _ h1, bankersRoundCore_of_ne _ _ (by norm_num)]
    rw [show (n : ℚ) * 10 ^ (1 : ℤ) = ((10 * n : ℤ) : ℚ) by push_cast; ring]
    rw [jsToFixed8_eq_self _ (intCast_mul_pow8_floor _), bankersPost_intCast]
    push_cast
    field_simp

theorem toBankersRound_quarter : toBankersRound (1/4) 1 = 1/5 := by
  have habs : |(1/4 : ℚ)| = 1/4 := by rw [abs_of_nonneg]; norm_num
  have hsig : getSignificantDigitIndex |(1/4 : ℚ)| = 1 := by
    rw [habs]
    unfold getSignificantDigitIndex floorLog10
    rw [if_neg (by norm_num), if_pos (by norm_num)]
    have hden : ((1/4 : ℚ)).den = 4 := by norm_num
    have hnum : ((1/4 : ℚ)).num = 1 := by norm_num
    rw [hden, hnum]
    norm_num
    rw [natLog10, natLog10F_lt _ _ (by norm_num) (by norm_num)]
  rw [toBankersRound_small _ _ (by norm_num) (by rw [habs]; norm_num), hsig]
  rw [show max (1 : ℤ) 1 = 1 from rfl]
  rw [bankersRoundCore_of_ne _ _ (by norm_num)]
  rw [show (1/4 : ℚ) * 10 ^ (1 : ℤ) = ((2 : ℤ) : ℚ) + 1/2 by norm_num]
  rw [jsToFixed8_eq_self _ (by norm_num), bankersPost_int_add_half]
  norm_num

theorem toBankersRound_inv_1e6 : toBankersRound (1/1000000) 1 = 1/1000000 := by
  have habs : |(1/1000000 : ℚ)| = 1/1000000 := by rw [abs_of_nonneg]; norm_num
  have hsig : getSignificantDigitIndex |(1/1000000 : ℚ)| = 6 := by
    rw [habs]
    unfold getSignificantDigitIndex floorLog10
    rw [if_neg (by norm_num), if_pos (by norm_num)]
    have hden : ((1/1000000 : ℚ)).den = 1000000 := by norm_num
    have hnum : ((1/1000000 : ℚ)).num = 1 := by norm_num
    rw [hden, hnum]
    norm_num
    rw [natLog10,
      natLog10F_ge _ _ (by norm_num) (by norm_num),
      show (999999 : ℕ) - 1 = 999998 from rfl, show (999999 : ℕ) / 10 = 99999 from rfl,
      natLog10F_ge _ _ (by norm_num) (by norm_num),
      show (999998 : ℕ) - 1 = 999997 from rfl, show (99999 : ℕ) / 10 = 9999 from rfl,
      natLog10F_ge _ _ (by norm_num) (by norm_num),
      show (999997 : ℕ) - 1 = 999996 from rfl, show (9999 : ℕ) / 10 = 999 from rfl,
      natLog10F_ge _ _ (by norm_num) (by norm_num),
      show (999996 : ℕ) - 1 = 999995 from rfl, show (999 : ℕ) / 10 = 99 from rfl,
      natLog10F_ge _ _ (by norm_num) (by norm_num),
      show (999995 : ℕ) - 1 = 999994 from rfl, show (99 : ℕ) / 10 = 9 from rfl,
      natLog10F_lt _ _ (by norm_num) (by norm_num)]
    norm_num
  rw [toBankersRound_small _ _ (by norm_num) (by rw [habs]; norm_num), hsig]
  rw [show max (6 : ℤ) 1 = 6 by norm_num]
  rw [bankersRoundCore_of_ne _ _ (by norm_num)]
  rw [show (1/1000000 : ℚ) * 10 ^ (6 : ℤ) = ((1 : ℤ) : ℚ) by norm_num]
  rw [jsToFixed8_eq_self _ (intCast_mul_pow8_floor _), bankersPost_intCast]
  norm_num

theorem toBankersRound_inv_1e3 : toBankersRound (1/1000) 1 = 1/1000 := by
  have habs : |(1/1000 : ℚ)| = 1/1000 := by rw [abs_of_nonneg]; norm_num
  have hsig : getSignificantDigitIndex |(1/1000 : ℚ)| = 3 := by
    rw [habs]
    unfold getSignificantDigitIndex floorLog10
    rw [if_neg (by norm_num), if_pos (by norm_num)]
    have hden : ((1/1000 : ℚ)).den = 1000 := by norm_num
    have hnum : ((1/1000 : ℚ)).num = 1 := by norm_num
    rw [hden, hnum]
    norm_num
    rw [natLog10,
      natLog10F_ge _ _ (by norm_num) (by norm_num),
      show (999 : ℕ) - 1 = 998 from rfl, show (999 : ℕ) / 10 = 99 from rfl,
      natLog10F_ge _ _ (by norm_num) (by norm_num),
      show (998 : ℕ) - 1 = 997 from rfl, show (99 : ℕ) / 10 = 9 from rfl,
      natLog10F_lt _ _ (by norm_num) (by norm_num)]
    norm_num
  rw [toBankersRound_small _ _ (by norm_num) (by rw [habs]; norm_num), hsig]
  rw [show max (3 : ℤ) 1 = 3 by norm_num]
  rw [bankersRoundCore_of_ne _ _ (by norm_num)]
  rw [show (1/1000 : ℚ) * 10 ^ (3 : ℤ) = ((1 : ℤ) : ℚ) by norm_num]
  rw [jsToFixed8_eq_self _ (intCast_mul_pow8_floor _), bankersPost_intCast]
  norm_num

/-- C1 (evaluation at the failing input).  Walking DOWN the ladder from
`"ton"` (index 2), the code pairs the bottom-most suffix `"g"` (index 0) with
a one-step rescaling: `convertUnitToFit 0.5 mass from "ton"` returns
`{number: 500, suffix: "g"}`, while expressing `0.5 ton` in the returned
suffix `"g"` requires `bankersRound (0.5 * 10 ^ ((2 - 0) * 3)) = 500000`. -/
theorem convertUnitToFit_downward_pairing_bug :
    convertUnitToFit (1/2) BASE_UNIT_MAP "mass" (some "ton") false =
      .ok ⟨500, "mass", some "g"⟩ ∧
    toBankersRound ((1/2) * (10 : ℚ) ^ (((2 : ℤ) - 0) * 3)) 1 = 500000 ∧
    (500 : ℚ) ≠ 500000 := by
  refine ⟨?_, ?_, by norm_num⟩
  · have h500 : toBankersRound (500 : ℚ) 1 = 500 := by
      exact_mod_cast toBankersRound_intCast_one 500
    have habs : |(1/2 : ℚ)| = 1/2 := by rw [abs_of_nonneg]; norm_num
    have habs500 : |(500 : ℚ)| = 500 := by rw [abs_of_nonneg]; norm_num
    norm_num [convertUnitToFit,
      show BASE_UNIT_MAP "mass" = some ⟨3, ["g", "kg", "ton"], 1⟩ from rfl,
      show resolveFromIndex ["g", "kg", "ton"] 1 (some "ton") = 2 from rfl,
      show Int.toNat 2 = 2 from rfl,
      show (["g", "kg", "ton"] : List String).take 2 = ["g", "kg"] from rfl,
      habs, fitSearch, h500, habs500]
    exact fun hcon => absurd hcon (by simp)
  · rw [show (1/2 : ℚ) * 10 ^ (((2 : ℤ) - 0) * 3) = ((500000 : ℤ) : ℚ) by norm_num]
    exact_mod_cast toBankersRound_intCast_one 500000

/-- C2 (evaluation at the failing input).  When the downward walk from
`"ton"` (index 2) exhausts its candidates, the code clamps to the LAST entry
of `suffices.slice(0, fromIndex)` — the suffix adjacent to the start, `"kg"`
— not to the ladder's extreme suffix `suffices[0] = "g"`:
`convertUnitToFit 1e-9 mass from "ton"` returns `{number: 1e-3, suffix:
"kg"}`. -/
theorem convertUnitToFit_downward_clamp_bug :
    convertUnitToFit (1/1000000000) BASE_UNIT_MAP "mass" (some "ton") false =
      .ok ⟨1/1000, "mass", some "kg"⟩ ∧ ("kg" : String) ≠ "g" := by
  refine ⟨?_, by decide⟩
  have habs : |(1/1000000000 : ℚ)| = 1/1000000000 := by rw [abs_of_nonneg]; norm_num
  have habs6 : |(1/1000000 : ℚ)| = 1/1000000 := by rw [abs_of_nonneg]; norm_num
  have habs3 : |(1/1000 : ℚ)| = 1/1000 := by rw [abs_of_nonneg]; norm_num
  norm_num [convertUnitToFit,
    show BASE_UNIT_MAP "mass" = some ⟨3, ["g", "kg", "ton"], 1⟩ from rfl,
    show resolveFromIndex ["g", "kg", "ton"] 1 (some "ton") = 2 from rfl,
    show Int.toNat 2 = 2 from rfl,
    show (["g", "kg", "ton"] : List String).take 2 = ["g", "kg"] from rfl,
    habs, fitSearch, toBankersRound_inv_1e6, toBankersRound_inv_1e3, habs6, habs3]
  exact fun hcon => absurd hcon (by simp)

/-- C5 (counterexample).  With `from = to = "kg"` the rescaling exponent is
zero, but the result still passes through banker's rounding at the default
precision: the input `0.25` comes back as `0.2`, not unchanged. -/
theorem convertUnitFromTo_same_suffix_not_identity :
    convertUnitFromTo (1/4) BASE_UNIT_MAP "mass" (some "kg") "kg" =
      .ok ⟨1/5, "mass", some "kg"⟩ ∧ (1/5 : ℚ) ≠ 1/4 := by
  refine ⟨?_, by norm_num⟩
  norm_num [convertUnitFromTo,
    show BASE_UNIT_MAP "mass" = some ⟨3, ["g", "kg", "ton"], 1⟩ from rfl,
    show resolveFromIndex ["g", "kg", "ton"] 1 (some "kg") = 1 from rfl,
    show jsIndexOf ["g", "kg", "ton"] "kg" = 1 from rfl,
    toBankersRound_quarter]

/-- C5 (amended).  When `from = to = X` with `X` present in the ladder and
non-empty (an empty `X` is falsy and resolves `from` to the base index
instead), `convertUnitFromTo` returns the input banker's-rounded at the
default precision 1, with suffix `X`; the number is unchanged exactly when it
is a fixed point of that rounding. -/
theorem convertUnitFromTo_same_suffix_rounds (n : ℚ) (unitMap : UnitMap)
    (unit : String) (item : UnitItem) (X : String)
    (hitem : unitMap unit = some item) (hX : X ≠ "")
    (hfound : jsIndexOf item.suffixes X ≠ -1) :
    convertUnitFromTo n unitMap unit (some X) X =
      .ok ⟨toBankersRound n 1, unit, some X⟩ := by
  simp only [convertUnitFromTo, hitem]
  have hres : resolveFromIndex item.suffixes item.baseIndex (some X) =
      jsIndexOf item.suffixes X := by
    simp [resolveFromIndex, hX]
  rw [hres, if_neg hfound, if_neg hfound]
  rw [show -((jsIndexOf item.suffixes X - jsIndexOf item.suffixes X) *
      (item.gap : ℤ)) = 0 by ring]
  rw [zpow_zero, mul_one]

theorem convertUnitFromTo_same_suffix_rounds_witness :
    convertUnitFromTo 100 BASE_UNIT_MAP "mass" (some "kg") "kg" =
      .ok ⟨toBankersRound 100 1, "mass", some "kg"⟩ :=
  convertUnitFromTo_same_suffix_rounds 100 BASE_UNIT_MAP "mass"
    ⟨3, ["g", "kg", "ton"], 1⟩ "kg" rfl (by decide) (by decide)

/-- C6 (counterexample).  An input whose numeric coercion is infinite passes
the validator — `Number.isNaN(Infinity)` is `false` — so both rounding entry
points return the infinity instead of failing, for a numeric `Infinity` and
for a string coercing to `Infinity` alike. -/
theorem rounding_accepts_infinite_input :
    toBankersRoundChecked (.num .posInf) 0 = .ok .posInf ∧
    roundHalfAwayFromZeroChecked (.num .posInf) 0 = .ok .posInf ∧
    toBankersRoundChecked (.str .posInf) 1 = .ok .posInf ∧
    checkMaybeNumericInput (.num .posInf) = .ok () := by
  refine ⟨rfl, rfl, rfl, rfl⟩

/-- C6 (amended).  The validator gate fails — for both rounding entry points,
with the same error — exactly on the inputs that are neither a number nor a
string (`null`, `undefined`) or whose numeric coercion is `NaN`; infinite
coercions pass and the call returns the infinity. -/
theorem rounding_validator_error_iff (input : MaybeNumericInput) (p : ℤ) :
    ((∃ e, toBankersRoundChecked input p = .error e) ↔
      (input = .null ∨ input = .undef ∨ jsNumberOf input = .nan)) ∧
    ((∃ e, roundHalfAwayFromZeroChecked input p = .error e) ↔
      (∃ e, toBankersRoundChecked input p = .error e)) ∧
    (∀ q : ℚ, jsNumberOf input = .fin q → checkMaybeNumericInput input = .ok () →
      toBankersRoundChecked input p = .ok (.fin (toBankersRound q p)) ∧
      roundHalfAwayFromZeroChecked input p = .ok (.fin (roundHalfAwayFromZero q p))) ∧
    (jsNumberOf input = .posInf → checkMaybeNumericInput input = .ok () →
      toBankersRoundChecked input p = .ok .posInf ∧
      roundHalfAwayFromZeroChecked input p = .ok .posInf) := by
  cases input with
  | num n =>
    cases n <;>
      simp [toBankersRoundChecked, roundHalfAwayFromZeroChecked,
        checkMaybeNumericInput, jsNumberOf]
  | str c =>
    cases c <;>
      simp [toBankersRoundChecked, roundHalfAwayFromZeroChecked,
        checkMaybeNumericInput, jsNumberOf]
  | null =>
    simp [toBankersRoundChecked, roundHalfAwayFromZeroChecked,
      checkMaybeNumericInput, jsNumberOf]
  | undef =>
    simp [toBankersRoundChecked, roundHalfAwayFromZeroChecked,
      checkMaybeNumericInput, jsNumberOf]

/-- Branch-level description of `convertUnitToFit` once the family is found
and the `from` index has resolved to a concrete in-range value `f`. -/
theorem convertUnitToFit_resolved (n : ℚ) (unitMap : UnitMap) (unit : String)
    (fromOpt : Option String) (offset : Bool) (item : UnitItem) (f : ℕ)
    (hitem : unitMap unit = some item)
    (hf : resolveFromIndex item.suffixes item.baseIndex fromOpt = (f : ℤ)) :
    convertUnitToFit n unitMap unit fromOpt offset =
      (let targetSuffices : List String :=
        if |n| < 1 then item.suffixes.take f else item.suffixes.drop (f + 1)
       let sg : ℤ := if |n| < 1 then 1 else -1
       let gw : ℕ := if offset then item.gap + 1 else item.gap
       if (1 ≤ |n| ∧ |n| < (10 : ℚ) ^ gw) ∨ targetSuffices = [] then
         Except.ok ⟨toBankersRound n 1, unit, item.suffixes[f]?⟩
       else
         match fitSearch n sg item.gap gw targetSuffices 0 with
         | some (rounded, sfx) => Except.ok ⟨rounded, unit, some sfx⟩
         | none =>
           Except.ok
             ⟨toBankersRound (n * (10 : ℚ) ^ (sg * (targetSuffices.length : ℤ) * item.gap)) 1,
               unit, targetSuffices.getLast?⟩) := by
  simp only [convertUnitToFit, hitem, hf]
  rw [if_neg (by omega : ¬((f : ℤ) = -1))]
  simp only [Int.toNat_natCast]

theorem fitSearch_mem (n : ℚ) (sg : ℤ) (g gw : ℕ) :
    ∀ (l : List String) (i : ℕ) (r : ℚ) (s : String),
      fitSearch n sg g gw l i = some (r, s) → s ∈ l := by
  intro l
  induction l with
  | nil => intro i r s h; simp [fitSearch] at h
  | cons a rest ih =>
    intro i r s h
    rw [fitSearch] at h
    by_cases hc : 1 ≤ |toBankersRound (n * (10 : ℚ) ^ (sg * (i + 1) * g)) 1| ∧
        |toBankersRound (n * (10 : ℚ) ^ (sg * (i + 1) * g)) 1| < (10 : ℚ) ^ gw
    · rw [if_pos hc] at h
      simp only [Option.some.injEq, Prod.mk.injEq] at h
      rw [← h.2]
      exact List.mem_cons_self a rest
    · rw [if_neg hc] at h
      exact List.mem_cons_of_mem a (ih (i + 1) r s h)

theorem convertUnitToFit_empty_from_ok (n : ℚ) (unitMap : UnitMap) (unit : String)
    (offset : Bool) (item : UnitItem) (hitem : unitMap unit = some item) :
    ∃ r, convertUnitToFit n unitMap unit (some "") offset = .ok r := by
  rw [convertUnitToFit_resolved n unitMap unit (some "") offset item item.baseIndex
    hitem (by simp [resolveFromIndex])]
  simp only []
  set t : List String :=
    if |n| < 1 then item.suffixes.take item.baseIndex
    else item.suffixes.drop (item.baseIndex + 1) with ht
  set sg : ℤ := if |n| < 1 then 1 else -1 with hsg
  set gw : ℕ := if offset then item.gap + 1 else item.gap with hgw
  by_cases hwin : (1 ≤ |n| ∧ |n| < (10 : ℚ) ^ gw) ∨ t = []
  · rw [if_pos hwin]
    exact ⟨_, rfl⟩
  · rw [if_neg hwin]
    cases hfs : fitSearch n sg item.gap gw t 0 with
    | none => exact ⟨_, rfl⟩
    | some val =>
      obtain ⟨r1, s1⟩ := val
      exact ⟨_, rfl⟩

theorem freqTally_empty_from_ok (unitMap : UnitMap) (unit : String)
    (offset : Bool) (item : UnitItem) (hitem : unitMap unit = some item) :
    ∀ (xs : List ℚ) (tally : List (Option String × ℕ)),
      ∃ t, freqTally unitMap unit "" offset xs tally = .ok t := by
  intro xs
  induction xs with
  | nil => intro tally; exact ⟨tally, rfl⟩
  | cons x rest ih =>
    intro tally
    obtain ⟨r, hr⟩ := convertUnitToFit_empty_from_ok x unitMap unit offset item hitem
    rw [freqTally, hr]
    exact ih (tallyInsert tally r.suffix)

/-- C10.  JS truthiness makes the empty string behave exactly like an absent
`from`: `fromIndex` silently resolves to the ladder's `baseIndex`, no
invalid-from-suffix error is ever raised for `from = ""` (in any of the three
operations, for any unit map — even one whose ladder lists `""` at a non-base
index), and the two conversion operations return exactly what they return for
an omitted `from`. -/
theorem empty_from_resolves_to_base_index :
    (∀ (n : ℚ) (unitMap : UnitMap) (unit toSfx : String),
      convertUnitFromTo n unitMap unit (some "") toSfx =
        convertUnitFromTo n unitMap unit none toSfx) ∧
    (∀ (n : ℚ) (unitMap : UnitMap) (unit : String) (offset : Bool),
      convertUnitToFit n unitMap unit (some "") offset =
        convertUnitToFit n unitMap unit none offset) ∧
    (∀ (suffixes : List String) (baseIndex : ℕ),
      resolveFromIndex suffixes baseIndex (some "") = (baseIndex : ℤ) ∧
      resolveFromIndex suffixes baseIndex none = (baseIndex : ℤ)) ∧
    (∀ (numbers : List ℚ) (unitMap : UnitMap) (unit : String) (offset : Bool)
        (optimizer : String) (s : Option String),
      getOptimalUnit numbers unitMap unit (some "") offset optimizer ≠
        .error (.invalidFromSuffix s)) := by
  refine ⟨?_, ?_, ?_, ?_⟩
  · intro n unitMap unit toSfx
    cases hm : unitMap unit with
    | none => simp [convertUnitFromTo, hm]
    | some item =>
      have hres : resolveFromIndex item.suffixes item.baseIndex (some "") =
          (item.baseIndex : ℤ) := by simp [resolveFromIndex]
      have hres' : resolveFromIndex item.suffixes item.baseIndex none =
          (item.baseIndex : ℤ) := rfl
      simp only [convertUnitFromTo, hm, hres, hres']
      rw [if_neg (by omega : ¬((item.baseIndex : ℤ) = -1))]
      rw [if_neg (by omega : ¬((item.baseIndex : ℤ) = -1))]
  · intro n unitMap unit offset
    cases hm : unitMap unit with
    | none => simp [convertUnitToFit, hm]
    | some item =>
      have hres : resolveFromIndex item.suffixes item.baseIndex (some "") =
          (item.baseIndex : ℤ) := by simp [resolveFromIndex]
      have hres' : resolveFromIndex item.suffixes item.baseIndex none =
          (item.baseIndex : ℤ) := rfl
      simp only [convertUnitToFit, hm, hres, hres']
      rw [if_neg (by omega : ¬((item.baseIndex : ℤ) = -1))]
      rw [if_neg (by omega : ¬((item.baseIndex : ℤ) = -1))]
  · intro suffixes baseIndex
    exact ⟨by simp [resolveFromIndex], rfl⟩
  · intro numbers unitMap unit offset optimizer s
    cases hm : unitMap unit with
    | none => simp [getOptimalUnit, hm]
    | some item =>
      simp only [getOptimalUnit, hm,
        show resolveFromIndex item.suffixes item.baseIndex (some "") =
          (item.baseIndex : ℤ) from by simp [resolveFromIndex]]
      rw [if_neg (by omega : ¬((item.baseIndex : ℤ) = -1))]
      dsimp only [jsNullish]
      cases numbers with
      | nil => simp
      | cons n0 rest =>
        dsimp only
        by_cases hminmax : optimizer = "min" ∨ optimizer = "max"
        · rw [if_pos hminmax]
          obtain ⟨r, hr⟩ := convertUnitToFit_empty_from_ok
            (if optimizer = "min" then jsMinList ((n0 :: rest).map (fun e => |e|))
             else jsMaxList ((n0 :: rest).map (fun e => |e|)))
            unitMap unit offset item hm
          rw [hr]
          simp
        · rw [if_neg hminmax]
          by_cases hfreq : optimizer = "freq"
          · rw [if_pos hfreq]
            obtain ⟨t, ht⟩ := freqTally_empty_from_ok unitMap unit offset item hm
              ((n0 :: rest).map (fun e => |e|)) []
            rw [ht]
            rcases hfm : firstMaxEntry t with _ | entry <;> simp [hfm]
          · rw [if_neg hfreq]
            simp

theorem empty_from_resolves_to_base_index_witness :
    convertUnitToFit 5 BASE_UNIT_MAP "mass" (some "") false =
      convertUnitToFit 5 BASE_UNIT_MAP "mass" none false :=
  empty_from_resolves_to_base_index.2.1 5 BASE_UNIT_MAP "mass" false

set_option maxRecDepth 8000 in
/-- C9.  Under the `min` (default) and `max` optimizers, `getOptimalUnit`
returns exactly the suffix of `convertUnitToFit` applied — with the same unit
map, unit, resolved `fromSuffix` and offset — to the single extremal value of
the absolute values of the inputs; in particular
`getOptimalUnit [100, 500000, 1000000] mass from "g"` returns `"g"`. -/
theorem getOptimalUnit_min_max_extremal (numbers : List ℚ) (n0 : ℚ)
    (rest : List ℚ) (unitMap : UnitMap) (unit : String) (item : UnitItem)
    (fromOpt : Option String) (offset : Bool) (fromSuffix : String)
    (hitem : unitMap unit = some item)
    (hres : resolveFromIndex item.suffixes item.baseIndex fromOpt ≠ -1)
    (hsfx : jsNullish fromOpt item.suffixes[item.baseIndex]? = some fromSuffix)
    (hnum : numbers = n0 :: rest) :
    getOptimalUnit numbers unitMap unit fromOpt offset "min" =
      Except.map (fun c => c.suffix)
        (convertUnitToFit (jsMinList (numbers.map (fun e => |e|))) unitMap unit
          (some fromSuffix) offset) ∧
    getOptimalUnit numbers unitMap unit fromOpt offset "max" =
      Except.map (fun c => c.suffix)
        (convertUnitToFit (jsMaxList (numbers.map (fun e => |e|))) unitMap unit
          (some fromSuffix) offset) ∧
    getOptimalUnit [100, 500000, 1000000] BASE_UNIT_MAP "mass" (some "g") false
      "min" = .ok (some "g") := by
  subst hnum
  refine ⟨?_, ?_, ?_⟩
  · simp only [getOptimalUnit, hitem]
    rw [if_neg hres, hsfx]
    dsimp only
    rw [if_pos (show True ∨ ("min" : String) = "max" from Or.inl trivial),
      if_pos trivial]
    cases hfit : convertUnitToFit (jsMinList ((n0 :: rest).map (fun e => |e|)))
        unitMap unit (some fromSuffix) offset with
    | error e => simp [Except.map]
    | ok c => simp [Except.map]
  · simp only [getOptimalUnit, hitem]
    rw [if_neg hres, hsfx]
    dsimp only
    rw [if_pos (show ("max" : String) = "min" ∨ True from Or.inr trivial)]
    simp only [List.map_cons]
    cases hfit : convertUnitToFit (jsMaxList (|n0| :: rest.map (fun e => |e|)))
        unitMap unit (some fromSuffix) offset with
    | error e => simp [Except.map, hfit]
    | ok c => simp [Except.map, hfit]
  · have h100 : toBankersRound (100 : ℚ) 1 = 100 := by
      exact_mod_cast toBankersRound_intCast_one 100
    have habs : |(100 : ℚ)| = 100 := by rw [abs_of_nonneg]; norm_num
    have hmin : jsMinList ([100, 500000, 1000000] : List ℚ) = 100 := by
      simp only [jsMinList, List.foldl]
      rw [min_eq_left (by norm_num), min_eq_left (by norm_num)]
    have hfit : convertUnitToFit 100 BASE_UNIT_MAP "mass" (some "g") false =
        .ok ⟨100, "mass", some "g"⟩ := by
      rw [convertUnitToFit_resolved 100 BASE_UNIT_MAP "mass" (some "g") false
        ⟨3, ["g", "kg", "ton"], 1⟩ 0 rfl rfl]
      simp only []
      rw [if_pos (Or.inl ⟨by rw [habs]; norm_num, by rw [habs]; norm_num⟩), h100]
      rfl
    simp only [getOptimalUnit,
      show BASE_UNIT_MAP "mass" = some ⟨3, ["g", "kg", "ton"], 1⟩ from rfl]
    rw [if_neg (by decide),
      show jsNullish (some "g")
        ((⟨3, ["g", "kg", "ton"], 1⟩ : UnitItem).suffixes[(⟨3, ["g", "kg", "ton"], 1⟩ : UnitItem).baseIndex]?) =
        some "g" from rfl]
    dsimp only
    rw [if_pos (show True ∨ ("min" : String) = "max" from Or.inl trivial),
      if_pos trivial]
    rw [show ([100, 500000, 1000000] : List ℚ).map (fun e => |e|) =
        [|(100 : ℚ)|, |(500000 : ℚ)|, |(1000000 : ℚ)|] from rfl]
    rw [habs, show |(500000 : ℚ)| = 500000 by rw [abs_of_nonneg]; norm_num,
      show |(1000000 : ℚ)| = 1000000 by rw [abs_of_nonneg]; norm_num, hmin, hfit]

theorem getOptimalUnit_min_max_extremal_witness :
    getOptimalUnit [100, 500000, 1000000] BASE_UNIT_MAP "mass" (some "g") false
      "min" = .ok (some "g") :=
  (getOptimalUnit_min_max_extremal [100, 500000, 1000000] 100 [500000, 1000000]
    BASE_UNIT_MAP "mass" ⟨3, ["g", "kg", "ton"], 1⟩ (some "g") false "g" rfl
    (by decide) rfl rfl).2.2

theorem getElem_not_mem_take (l : List String) (f : ℕ) (hnd : l.Nodup)
    (hf : f < l.length) : l[f] ∉ l.take f := by
  intro hmem
  have hnd' : (l.take f ++ l.drop f).Nodup := by
    rw [List.take_append_drop f l]
    exact hnd
  have hdisj := (List.nodup_append.1 hnd').2.2
  have hmem2 : l[f] ∈ l.drop f := by
    rw [List.drop_eq_getElem_cons hf]
    exact List.mem_cons_self _ _
  exact hdisj hmem hmem2

theorem getElem_not_mem_drop (l : List String) (f : ℕ) (hnd : l.Nodup)
    (hf : f < l.length) : l[f] ∉ l.drop (f + 1) := by
  have hsub : (l.drop f).Nodup := List.Nodup.sublist (List.drop_sublist f l) hnd
  rw [List.drop_eq_getElem_cons hf] at hsub
  exact (List.nodup_cons.1 hsub).1

theorem fitSearch_suffix_in_candidates (n : ℚ) (unitMap : UnitMap)
    (unit : String) (item : UnitItem) (fromOpt : Option String) (offset : Bool)
    (f : ℕ) (r : ConvertedReturn) (gw : ℕ)
    (hitem : unitMap unit = some item)
    (hf : resolveFromIndex item.suffixes item.baseIndex fromOpt = (f : ℤ))
    (hgw : gw = if offset then item.gap + 1 else item.gap)
    (hwin : ¬((1 ≤ |n| ∧ |n| < (10 : ℚ) ^ gw) ∨
      (if |n| < 1 then item.suffixes.take f else item.suffixes.drop (f + 1)) = []))
    (hok : convertUnitToFit n unitMap unit fromOpt offset = .ok r) :
    ∃ s, r.suffix = some s ∧
      s ∈ (if |n| < 1 then item.suffixes.take f else item.suffixes.drop (f + 1)) := by
  rw [convertUnitToFit_resolved n unitMap unit fromOpt offset item f hitem hf] at hok
  simp only [] at hok
  rw [← hgw] at hok
  rw [if_neg hwin] at hok
  cases hfs : fitSearch n (if |n| < 1 then 1 else -1) item.gap gw
      (if |n| < 1 then item.suffixes.take f else item.suffixes.drop (f + 1)) 0 with
  | some val =>
    obtain ⟨rv, sv⟩ := val
    rw [hfs] at hok
    simp only [] at hok
    injection hok with h
    subst h
    exact ⟨sv, rfl, fitSearch_mem n _ item.gap gw _ 0 rv sv hfs⟩
  | none =>
    rw [hfs] at hok
    simp only [] at hok
    injection hok with h
    subst h
    rcases hlast : (if |n| < 1 then item.suffixes.take f else
        item.suffixes.drop (f + 1)).getLast? with _ | s
    · exfalso
      apply hwin
      right
      exact List.getLast?_eq_none_iff.1 hlast
    · exact ⟨s, rfl, List.mem_of_mem_getLast? hlast⟩

theorem convertUnitToFit_window_branch (n : ℚ) (unitMap : UnitMap)
    (unit : String) (item : UnitItem) (fromOpt : Option String) (offset : Bool)
    (f : ℕ) (gw : ℕ)
    (hitem : unitMap unit = some item)
    (hf : resolveFromIndex item.suffixes item.baseIndex fromOpt = (f : ℤ))
    (hgw : gw = if offset then item.gap + 1 else item.gap)
    (hwin : (1 ≤ |n| ∧ |n| < (10 : ℚ) ^ gw) ∨
      (if |n| < 1 then item.suffixes.take f else item.suffixes.drop (f + 1)) = []) :
    convertUnitToFit n unitMap unit fromOpt offset =
      .ok ⟨toBankersRound n 1, unit, item.suffixes[f]?⟩ := by
  rw [convertUnitToFit_resolved n unitMap unit fromOpt offset item f hitem hf]
  simp only []
  rw [← hgw, if_pos hwin]

theorem fit_nonwindow_suffix_ne (n : ℚ) (unitMap : UnitMap) (unit : String)
    (item : UnitItem) (fromOpt : Option String) (offset : Bool) (f : ℕ)
    (r : ConvertedReturn) (gw : ℕ)
    (hitem : unitMap unit = some item)
    (hf : resolveFromIndex item.suffixes item.baseIndex fromOpt = (f : ℤ))
    (hflen : f < item.suffixes.length)
    (hnd : item.suffixes.Nodup)
    (hgw : gw = if offset then item.gap + 1 else item.gap)
    (hwin : ¬((1 ≤ |n| ∧ |n| < (10 : ℚ) ^ gw) ∨
      (if |n| < 1 then item.suffixes.take f else item.suffixes.drop (f + 1)) = []))
    (hok : convertUnitToFit n unitMap unit fromOpt offset = .ok r) :
    r.suffix ≠ item.suffixes[f]? := by
  intro hkeep
  obtain ⟨s, hs, hmem⟩ := fitSearch_suffix_in_candidates n unitMap unit item
    fromOpt offset f r gw hitem hf hgw hwin hok
  rw [hkeep, List.getElem?_eq_getElem hflen] at hs
  injection hs with hsf
  by_cases habs : |n| < 1
  · rw [if_pos habs] at hmem
    exact getElem_not_mem_take item.suffixes f hnd hflen (hsf ▸ hmem)
  · rw [if_neg habs] at hmem
    exact getElem_not_mem_drop item.suffixes f hnd hflen (hsf ▸ hmem)

/-- C8.  The `offset` option strictly widens the no-conversion window:
(a) whenever the call with `offset = false` keeps the resolved `fromSuffix`,
the identical call with `offset = true` returns the very same result, and
(b) for a magnitude in `[10 ^ gap, 10 ^ (gap + 1))` with a larger suffix
available, `offset = true` keeps `fromSuffix` while `offset = false` returns
some other suffix. -/
theorem convertUnitToFit_offset_widens_window (n : ℚ) (unitMap : UnitMap)
    (unit : String) (item : UnitItem) (fromOpt : Option String) (f : ℕ)
    (hitem : unitMap unit = some item)
    (hf : resolveFromIndex item.suffixes item.baseIndex fromOpt = (f : ℤ))
    (hflen : f < item.suffixes.length)
    (hnd : item.suffixes.Nodup) :
    (∀ r : ConvertedReturn,
      convertUnitToFit n unitMap unit fromOpt false = .ok r →
      r.suffix = item.suffixes[f]? →
      convertUnitToFit n unitMap unit fromOpt true = .ok r) ∧
    ((10 : ℚ) ^ item.gap ≤ |n| → |n| < (10 : ℚ) ^ (item.gap + 1) →
      f + 1 < item.suffixes.length →
      convertUnitToFit n unitMap unit fromOpt true =
        .ok ⟨toBankersRound n 1, unit, item.suffixes[f]?⟩ ∧
      (∀ r : ConvertedReturn,
        convertUnitToFit n unitMap unit fromOpt false = .ok r →
        r.suffix ≠ item.suffixes[f]?)) := by
  constructor
  · intro r hok hkeep
    by_cases hwin : (1 ≤ |n| ∧ |n| < (10 : ℚ) ^ item.gap) ∨
        (if |n| < 1 then item.suffixes.take f else item.suffixes.drop (f + 1)) = []
    · rw [convertUnitToFit_window_branch n unitMap unit item fromOpt false f
        item.gap hitem hf rfl hwin] at hok
      injection hok with h
      subst h
      apply convertUnitToFit_window_branch n unitMap unit item fromOpt true f
        (item.gap + 1) hitem hf rfl
      rcases hwin with ⟨h1, h2⟩ | hnil
      · exact Or.inl ⟨h1, lt_of_lt_of_le h2
          (pow_le_pow_right₀ (by norm_num) (Nat.le_succ _))⟩
      · exact Or.inr hnil
    · exact absurd hkeep (fit_nonwindow_suffix_ne n unitMap unit item fromOpt
        false f r item.gap hitem hf hflen hnd rfl hwin hok)
  · intro hlow hhigh hlarger
    have h10 : (1 : ℚ) ≤ 10 ^ item.gap := one_le_pow₀ (by norm_num)
    have h1n : 1 ≤ |n| := le_trans h10 hlow
    have hwin : ¬((1 ≤ |n| ∧ |n| < (10 : ℚ) ^ item.gap) ∨
        (if |n| < 1 then item.suffixes.take f else item.suffixes.drop (f + 1)) = []) := by
      intro hcon
      rcases hcon with ⟨_, h2⟩ | hnil
      · exact absurd h2 (not_lt.2 hlow)
      · rw [if_neg (not_lt.2 h1n)] at hnil
        have := List.drop_eq_nil_iff.1 hnil
        omega
    constructor
    · exact convertUnitToFit_window_branch n unitMap unit item fromOpt true f
        (item.gap + 1) hitem hf rfl (Or.inl ⟨h1n, hhigh⟩)
    · intro r hok
      exact fit_nonwindow_suffix_ne n unitMap unit item fromOpt false f r
        item.gap hitem hf hflen hnd rfl hwin hok

theorem convertUnitToFit_offset_widens_window_witness :
    convertUnitToFit 5000 BASE_UNIT_MAP "mass" (some "g") true =
      .ok ⟨toBankersRound 5000 1, "mass",
        (["g", "kg", "ton"] : List String)[0]?⟩ ∧
    (∀ r : ConvertedReturn,
      convertUnitToFit 5000 BASE_UNIT_MAP "mass" (some "g") false = .ok r →
      r.suffix ≠ (["g", "kg", "ton"] : List String)[0]?) :=
  (convertUnitToFit_offset_widens_window 5000 BASE_UNIT_MAP "mass"
    ⟨3, ["g", "kg", "ton"], 1⟩ (some "g") 0 rfl rfl (by norm_num) (by decide)).2
    (by rw [abs_of_nonneg] <;> norm_num) (by rw [abs_of_nonneg] <;> norm_num)
    (by norm_num)

theorem rounding_validator_error_iff_witness :
    toBankersRoundChecked (.num (.fin (5/2))) 0 =
      .ok (.fin (toBankersRound (5/2) 0)) ∧
    roundHalfAwayFromZeroChecked (.num (.fin (5/2))) 0 =
      .ok (.fin (roundHalfAwayFromZero (5/2) 0)) :=
  (rounding_validator_error_iff (.num (.fin (5/2))) 0).2.2.1 (5/2) rfl rfl
